import Mathlib

/-!
Verification of the tiling/windowing core of `primalscheme/multiplex.py`
(classes `MultiplexScheme`, `Window`, `Region` and their error types).

The shallow embedding below translates the Python source into executable
Lean definitions:

* Python integers become `Int` (reference coordinates may go negative in
  intermediate arithmetic, and the source relies on that).
* Primer penalties are floats used only for comparison and addition; they
  are embedded as `Rat`.
* Exceptions become explicit error values (`Err`); a `try/except E:`
  block becomes a `match` that handles exactly the constructor
  corresponding to `E` and re-propagates every other error.
* The two unbounded `while` loops (`Region.find_primers` and
  `MultiplexScheme.design_scheme`) are embedded with an explicit fuel
  parameter; running out of fuel yields the distinguished artefact error
  `Err.fuelExhausted`, which no handler catches.  (The inner loop really
  can diverge when `step_distance = 0`, so fuel is the honest embedding.)
* The external collaborators (`design_primers`, `PrimerCandidate.align`,
  `CandidatePrimerPair`), which live in `primalscheme.components`, enter
  as parameters: candidate lists with an `alignOk` flag and a `penalty`
  score, a combined-penalty function `cp`, and — at the orchestrator
  level — an oracle giving the outcome of a single-slice search as a
  function of `slice_start` (the only piece of mutable state the slice
  search reads).
-/

namespace Primalscheme

/-- Error values standing for the exceptions of `multiplex.py` and
`primalscheme.components`: `InsufficientPrimersError`,
`SliceOutOfBoundsError`, `NoSuitablePrimersError`, plus the fuel
artefact of the embedding of the two `while` loops. -/
inductive Err where
  | insufficientPrimers
  | sliceOutOfBounds
  | noSuitablePrimers
  | fuelExhausted
deriving DecidableEq

/-- A primer's genomic coordinates (`.start` / `.end` of a candidate, as
used by `design_scheme`).  `end` is a Lean keyword, hence `end_`. -/
structure PrimerPos where
  start : Int
  end_ : Int
deriving DecidableEq

/-- The `.left` / `.right` primers of a selected `CandidatePrimerPair`,
as read by the orchestrator (`prev.left.start`, `prev.right.end` ...). -/
structure PairPos where
  left : PrimerPos
  right : PrimerPos
deriving DecidableEq

/-- The scheme-level data `MultiplexScheme.__init__` derives and the
window/region code reads: `ref_len = len(primary_ref)`,
`amplicon_size_min/max = p3_global["PRIMER_PRODUCT_SIZE_RANGE"][0]`,
`primer_max_size = p3_global["PRIMER_MAX_SIZE"]`, plus `target_overlap`
and `step_distance` from the constructor arguments. -/
structure Scheme where
  ref_len : Int
  amplicon_size_min : Int
  amplicon_size_max : Int
  primer_max_size : Int
  target_overlap : Int
  step_distance : Int
deriving DecidableEq

/-- `self.amplicon_max_variation = amplicon_size_max - amplicon_size_min`
(multiplex.py line 63). -/
def Scheme.amplicon_max_variation (s : Scheme) : Int :=
  s.amplicon_size_max - s.amplicon_size_min

/-- The state of a `Window` (multiplex.py lines 127-176): fixed
`left_limit` and `right_limit`, mutable `slice_start`, and the saved
`_initial_slice_start` (here `initial_slice_start`). -/
structure Window where
  scheme : Scheme
  left_limit : Int
  slice_start : Int
  right_limit : Int
  initial_slice_start : Int
deriving DecidableEq

/-- Derived property `Window.slice_end = slice_start + amplicon_size_max`
(multiplex.py lines 169-171). -/
def Window.slice_end (w : Window) : Int :=
  w.slice_start + w.scheme.amplicon_size_max

/-- The value Python's `right_limit or len(scheme.primary_ref.seq)`
(line 137) assigns: `None` — and, by falsiness, an explicit `0` — are
replaced by the primary reference length. -/
def effectiveRightLimit (s : Scheme) (right_limit : Option Int) : Int :=
  match right_limit with
  | none => s.ref_len
  | some r => if r = 0 then s.ref_len else r

/-- `Window.__init__` (multiplex.py lines 133-148): store the limits,
save the initial slice start, then check bounds; raise
`SliceOutOfBoundsError` if `slice_start < left_limit` or
`slice_end > right_limit`. -/
def mkWindow (scheme : Scheme) (left_limit slice_start : Int)
    (right_limit : Option Int) : Except Err Window :=
  let rl := effectiveRightLimit scheme right_limit
  let w : Window := ⟨scheme, left_limit, slice_start, rl, slice_start⟩
  if slice_start < left_limit ∨ w.slice_end > rl then
    .error .sliceOutOfBounds
  else
    .ok w

/-- `Window.step_left` (lines 150-156): the bounds check precedes the
mutation, so on failure the window is returned unchanged together with
the raised error. -/
def Window.step_left (w : Window) : Window × Option Err :=
  let distance := w.scheme.step_distance
  if w.slice_start - distance < w.left_limit then
    (w, some .sliceOutOfBounds)
  else
    ({ w with slice_start := w.slice_start - distance }, none)

/-- `Window.step_right` (lines 158-164): the bounds check precedes the
mutation, so on failure the window is returned unchanged together with
the raised error. -/
def Window.step_right (w : Window) : Window × Option Err :=
  let distance := w.scheme.step_distance
  if w.slice_end + distance > w.right_limit then
    (w, some .sliceOutOfBounds)
  else
    ({ w with slice_start := w.slice_start + distance }, none)

/-- `Window.reset_slice` (lines 166-167). -/
def Window.reset_slice (w : Window) : Window :=
  { w with slice_start := w.initial_slice_start }

/-- A primer candidate as `_find_primers_for_slice` consumes it: its
coordinates, its engine `penalty`, and whether
`primer.align(references)` succeeds (`alignOk = false` models the
`FailedAlignmentError` case). -/
structure CPrimer where
  start : Int
  end_ : Int
  penalty : Rat
  alignOk : Bool
deriving DecidableEq

/-- `PENALTY_THRESHOLD = 5` (multiplex.py line 223). -/
def PENALTY_THRESHOLD : Rat := 5

/-- A candidate is removed from its direction's list when its alignment
fails or its penalty exceeds the threshold (lines 241-246). -/
def badPrimer (p : CPrimer) : Bool :=
  !p.alignOk || decide (p.penalty > PENALTY_THRESHOLD)

/-- CPython semantics of the filtering loop
`for primer in direction: ... direction.remove(primer)`
(multiplex.py lines 239-246).  The list iterator keeps a cursor `i`;
`next()` returns `l[i]` and advances the cursor, and removing the
current element shifts the remainder left under the already-advanced
cursor, so the element following a removed one is never examined.
(Candidates are distinct objects, so `list.remove` deletes exactly the
element at the cursor position.) -/
def align_filter_go (l : List CPrimer) (i : Nat) : List CPrimer :=
  if h : i < l.length then
    if badPrimer (l.get ⟨i, h⟩) then
      align_filter_go (l.eraseIdx i) (i + 1)
    else
      align_filter_go l (i + 1)
  else
    l
termination_by l.length - i
decreasing_by
  · have := l.length_eraseIdx_of_lt h
    omega
  · omega

/-- The specificity/penalty filtering pass over one direction's
candidate list, as the source executes it. -/
def align_filter (l : List CPrimer) : List CPrimer :=
  align_filter_go l 0

/-- Modelled from the spec: the missing `primalscheme.components` class
`CandidatePrimerPair` carries the two candidates and a
`combined_penalty` "derived from both candidates' individual penalties
and a specificity-derived identity score"; the derivation itself enters
as the parameter `cp` below. -/
structure CandidatePrimerPair where
  left : CPrimer
  right : CPrimer
  combined_penalty : Rat
deriving DecidableEq

/-- The cross product
`[CandidatePrimerPair(left, right) for left in candidates[0] for right in candidates[1]]`
(multiplex.py lines 251-255); the left candidate is the major (outer)
loop, so construction order is left-candidate-major. -/
def crossPairs (cp : CPrimer → CPrimer → Rat) (c0 c1 : List CPrimer) :
    List CandidatePrimerPair :=
  c0.flatMap fun L => c1.map fun R => ⟨L, R, cp L R⟩

/-- `_sort_candidate_pairs` (lines 258-261): Python's `list.sort` with
key `combined_penalty` is a stable sort, and a stable sort by a key is
uniquely determined, so Mathlib's (stable) insertion sort by
`combined_penalty ≤ combined_penalty` computes the same list. -/
def sortPairs (l : List CandidatePrimerPair) : List CandidatePrimerPair :=
  l.insertionSort fun a b => a.combined_penalty ≤ b.combined_penalty

/-- `_pick_pair` (lines 263-265): sort, then take element `[0]`. -/
def pickTop (l : List CandidatePrimerPair) : Option CandidatePrimerPair :=
  (sortPairs l).head?

/-- `Region._find_primers_for_slice` (multiplex.py lines 220-256), given
the outputs of the two external `design_primers` calls (`cand0` the
forward/left direction, `cand1` the reverse/right direction) and the
external combined-penalty function `cp`: filter both directions, raise
`InsufficientPrimersError` if either list is empty, otherwise build the
cross product and pick the top pair.  (The `none` fallback is
unreachable: the cross product of two nonempty lists is nonempty.) -/
def find_primers_for_slice (cp : CPrimer → CPrimer → Rat)
    (cand0 cand1 : List CPrimer) : Except Err CandidatePrimerPair :=
  let c0 := align_filter cand0
  let c1 := align_filter cand1
  if c0.isEmpty || c1.isEmpty then
    .error .insufficientPrimers
  else
    match pickTop (crossPairs cp c0 c1) with
    | some t => .ok t
    | none => .error .insufficientPrimers

/-- Trace events recorded by the embedding of `Region.find_primers`:
`att pos` — a single-slice search attempt at `slice_start = pos`;
`exhaust` — the left limit was hit, the slice was reset and the
`exhausted_left` flag set; `stepRight pos` — a successful right step to
`slice_start = pos`.  The trace is pure instrumentation: the result
component never depends on it. -/
inductive Ev where
  | att (pos : Int)
  | exhaust
  | stepRight (pos : Int)
deriving DecidableEq

/-- The outcome of one `_find_primers_for_slice` call as a function of
the only mutable state it reads, `self.slice_start` (the reference, the
p3 parameters and the slice length are fixed for the scheme's
lifetime).  On success it yields the selected `top_pair`'s coordinates;
the genuine source only ever raises `InsufficientPrimersError`, but the
type allows any error so that the propagation structure of the
`try/except` blocks stays visible. -/
def SliceOracle : Type := Int → Except Err PairPos

/-- `Region.find_primers` (multiplex.py lines 193-218), one `while True`
iteration per unit of fuel: attempt the current slice; on
`InsufficientPrimersError` step left until the left limit is hit, then
reset the slice, set `exhausted_left`, and step right until the right
limit is hit, which raises `NoSuitablePrimersError`; any other error
from the attempt propagates. -/
def find_primers_go (o : SliceOracle) :
    Nat → Bool → Window → Except Err (Window × PairPos) × List Ev
  | 0, _, _ => (.error .fuelExhausted, [])
  | fuel + 1, exhausted_left, w =>
    match o w.slice_start with
    | .ok p => (.ok (w, p), [.att w.slice_start])
    | .error .insufficientPrimers =>
      if exhausted_left then
        match w.step_right with
        | (w', none) =>
          let r := find_primers_go o fuel true w'
          (r.1, .att w.slice_start :: .stepRight w'.slice_start :: r.2)
        | (_, some _) => (.error .noSuitablePrimers, [.att w.slice_start])
      else
        match w.step_left with
        | (w', none) =>
          let r := find_primers_go o fuel false w'
          (r.1, .att w.slice_start :: r.2)
        | (_, some _) =>
          let r := find_primers_go o fuel true w.reset_slice
          (r.1, .att w.slice_start :: .exhaust :: r.2)
    | .error e => (.error e, [.att w.slice_start])

/-- `Region.find_primers` starts with `exhausted_left = False` at the
window's current slice. -/
def find_primers (o : SliceOracle) (fuel : Nat) (w : Window) :
    Except Err (Window × PairPos) × List Ev :=
  find_primers_go o fuel false w

/-- A `Region` as it is appended to `scheme.regions` by `design_scheme`:
its 1-based `region_num`, its window in the state reached when the
search succeeded, and the selected `top_pair`. -/
structure Region where
  region_num : Nat
  window : Window
  top_pair : PairPos
deriving DecidableEq

/-- `self.pool = 1 if region_num % 2 == 1 else 2` (multiplex.py line
186). -/
def Region.pool (r : Region) : Nat :=
  if r.region_num % 2 = 1 then 1 else 2

/-- The `left_limit` computation of `design_scheme` (multiplex.py lines
80-88).  `regions[-1]` is index `length - 1`, `regions[-2]` is index
`length - 2`; `prev_in_pool` is only consulted for `region_num > 2`
(the Python `or` short-circuits on `region_num == 2`).  The `none`
fallbacks are unreachable in a `design_scheme` run, where
`region_num = regions.length + 1`. -/
def leftLimitFor (regions : List Region) (region_num : Nat) : Int :=
  if region_num = 1 then 0
  else
    match regions[regions.length - 1]? with
    | none => 0
    | some prevR =>
      let prev := prevR.top_pair
      if region_num = 2 then prev.left.end_ + 1
      else
        match regions[regions.length - 2]? with
        | none => prev.left.end_ + 1
        | some pip =>
          if prev.left.start > pip.top_pair.right.start then
            prev.left.end_ + 1
          else
            pip.top_pair.right.start + 1

/-- The `slice_start` / `is_last` computation of `design_scheme` for
`region_num ≥ 2` (multiplex.py lines 93-108): target the configured
overlap, clamp up to `left_limit`, detect the last region, and in that
case clamp down to the right-aligned position. -/
def slicePlan (s : Scheme) (prev : PairPos) (left_limit : Int) :
    Int × Bool :=
  let insert_start := prev.right.end_ - s.target_overlap - 1
  let slice_start := insert_start - s.primer_max_size - s.amplicon_max_variation
  let slice_start := max slice_start left_limit
  let remaining_distance := s.ref_len - prev.right.start
  let is_last := decide (remaining_distance ≤ s.amplicon_size_max)
  let slice_start :=
    if is_last then min slice_start (s.ref_len - s.amplicon_size_max)
    else slice_start
  (slice_start, is_last)

/-- One iteration's bounds plan `(left_limit, slice_start, is_last)`
(multiplex.py lines 80-108).  Region 1 starts at
`left_limit = slice_start = 0` with `is_last` still `False`; the `none`
fallback is unreachable in a run. -/
def planFor (s : Scheme) (regions : List Region) (region_num : Nat) :
    Int × Int × Bool :=
  let left_limit := leftLimitFor regions region_num
  if region_num = 1 then (left_limit, 0, false)
  else
    match regions[regions.length - 1]? with
    | none => (left_limit, 0, false)
    | some prevR =>
      let p := slicePlan s prevR.top_pair left_limit
      (left_limit, p.1, p.2)

/-- The `while not is_last` loop of `MultiplexScheme.design_scheme`
(multiplex.py lines 75-124), one iteration per unit of fuel.  `events`
accumulates the `progress_func` invocations in order.  The `Region`
construction on line 111 sits outside the `try` block of lines 112-117,
so a `SliceOutOfBoundsError` raised by `Window.__init__` propagates out
of the loop; only `NoSuitablePrimersError` is caught, re-raised for
region 1 and turned into a normal best-effort exit (`break`, then the
completion progress call) for any later region. -/
def design_loop (s : Scheme) (o : SliceOracle) (ifuel : Nat) :
    Nat → List Region → List (Int × Int) → Nat →
    Except Err (List Region × List (Int × Int))
  | 0, _, _, _ => .error .fuelExhausted
  | fuel + 1, regions, events, rn =>
    let region_num := rn + 1
    let plan := planFor s regions region_num
    match mkWindow s plan.1 plan.2.1 none with
    | .error e => .error e
    | .ok w =>
      match (find_primers o ifuel w).1 with
      | .error .noSuitablePrimers =>
        if region_num = 1 then .error .noSuitablePrimers
        else .ok (regions, events ++ [(s.ref_len, s.ref_len)])
      | .error e => .error e
      | .ok (w', pair) =>
        let regions' := regions ++ [⟨region_num, w', pair⟩]
        let events' := events ++ [(pair.right.start, s.ref_len)]
        if plan.2.2 then .ok (regions', events' ++ [(s.ref_len, s.ref_len)])
        else design_loop s o ifuel fuel regions' events' region_num

/-- `MultiplexScheme.design_scheme` (multiplex.py lines 68-124): run the
loop from an empty region list.  On a normal exit the result carries the
final `self.regions` and the ordered `progress_func` calls, ending with
the completion call `(ref_len, ref_len)`; an error result models the
exception propagating out of `design_scheme`. -/
def design_scheme (s : Scheme) (o : SliceOracle) (ifuel fuel : Nat) :
    Except Err (List Region × List (Int × Int)) :=
  design_loop s o ifuel fuel [] [] 0

/-- The value of `self.regions` after `design_scheme` returns or
raises: an escaping exception skips the `self.regions = regions`
assignment on line 122, leaving the `[]` set by `__init__`. -/
def regionsAfter (r : Except Err (List Region × List (Int × Int))) :
    List Region :=
  match r with
  | .ok (rs, _) => rs
  | .error _ => []

/-! ### Concrete instances used by counterexamples and witnesses -/

/-- A combined-penalty function for concrete runs (the external
derivation is opaque to this core, so any function will do). -/
def cpFst : CPrimer → CPrimer → Rat := fun a _ => a.penalty

/-- A surviving forward candidate (penalty 1, alignment fine). -/
def gPrimer : CPrimer := ⟨10, 15, 1, true⟩

/-- A reverse candidate over the penalty threshold. -/
def badA : CPrimer := ⟨20, 25, 6, true⟩

/-- A second reverse candidate over the penalty threshold, adjacent to
the first. -/
def badB : CPrimer := ⟨30, 35, 7, true⟩

/-- Scheme with a reference (length 100) shorter than the maximum
amplicon size (400). -/
def s2 : Scheme := ⟨100, 380, 400, 22, 0, 11⟩

/-- A slice oracle that never finds sufficient primers. -/
def oIns : SliceOracle := fun _ => .error .insufficientPrimers

/-- Scheme for the bounds-check counterexample: reference length 100,
maximum amplicon size 40. -/
def s8 : Scheme := ⟨100, 35, 40, 22, 0, 11⟩

/-- The window that `Window.__init__` builds for `s8` when the supplied
`right_limit` of `0` is discarded as falsy. -/
def w8 : Window := ⟨s8, 0, 0, 100, 0⟩

/-- Scheme for the step round-trip witness: step distance 3. -/
def s9 : Scheme := ⟨100, 30, 30, 5, 0, 3⟩

/-- Start window for the round-trip witness. -/
def w9 : Window := ⟨s9, 0, 5, 100, 5⟩

/-- `w9` after one left step. -/
def w9a : Window := ⟨s9, 0, 2, 100, 5⟩

/-- `w9a` after one right step (back at the original `slice_start`). -/
def w9b : Window := ⟨s9, 0, 5, 100, 5⟩

/-- A window one unit above its left limit, so a step of 3 hits it. -/
def wE9 : Window := ⟨s9, 0, 1, 100, 1⟩

/-- Scheme for the four-region end-to-end run: reference length 100,
amplicon size exactly 30, primer max 5, target overlap 0, step 1. -/
def s5 : Scheme := ⟨100, 30, 30, 5, 0, 1⟩

/-- Top pair found for region 1 of the `s5` run. -/
def pr1 : PairPos := ⟨⟨0, 4⟩, ⟨25, 29⟩⟩

/-- Top pair found for region 2 of the `s5` run. -/
def pr2 : PairPos := ⟨⟨23, 27⟩, ⟨48, 52⟩⟩

/-- Top pair found for region 3 of the `s5` run. -/
def pr3 : PairPos := ⟨⟨46, 50⟩, ⟨71, 75⟩⟩

/-- Top pair found for region 4 of the `s5` run. -/
def pr4 : PairPos := ⟨⟨69, 73⟩, ⟨94, 98⟩⟩

/-- Slice oracle of the `s5` run: each region succeeds immediately at
its initial slice position. -/
def o5 : SliceOracle := fun x =>
  if x = 0 then .ok pr1 else if x = 23 then .ok pr2
  else if x = 46 then .ok pr3 else if x = 69 then .ok pr4
  else .error .insufficientPrimers

/-- Region 1 of the `s5` run. -/
def r5_1 : Region := ⟨1, ⟨s5, 0, 0, 100, 0⟩, pr1⟩

/-- Region 2 of the `s5` run. -/
def r5_2 : Region := ⟨2, ⟨s5, 5, 23, 100, 23⟩, pr2⟩

/-- Region 3 of the `s5` run. -/
def r5_3 : Region := ⟨3, ⟨s5, 26, 46, 100, 46⟩, pr3⟩

/-- Region 4 of the `s5` run. -/
def r5_4 : Region := ⟨4, ⟨s5, 49, 69, 100, 69⟩, pr4⟩

/-- The regions of the completed `s5` run. -/
def rs5 : List Region := [r5_1, r5_2, r5_3, r5_4]

/-- The progress events of the completed `s5` run. -/
def evs5 : List (Int × Int) := [(25, 100), (48, 100), (71, 100), (94, 100), (100, 100)]

/-- A second surviving reverse candidate with the same penalty as
`gR1`, to exercise the tie-break. -/
def gR1 : CPrimer := ⟨40, 45, 2, true⟩

/-- A reverse candidate tying with `gR1` on combined penalty. -/
def gR2 : CPrimer := ⟨50, 55, 2, true⟩

/-- The selector described by the spec's words for §4.3: the pair of
minimal combined penalty, ties broken by input order (the earliest such
pair).  Used to compare the source's sort-then-head selection against
the specified behaviour. -/
def firstMinPair : List CandidatePrimerPair → Option CandidatePrimerPair
  | [] => none
  | a :: l =>
    match firstMinPair l with
    | none => some a
    | some m => if a.combined_penalty ≤ m.combined_penalty then some a else some m

/-- Scheme for the boundary-behaviour runs: reference length 12,
amplicon size exactly 5, step distance 5. -/
def sT : Scheme := ⟨12, 5, 5, 1, 0, 5⟩

/-- A region 1 already accepted in an `sT` run. -/
def rT1 : Region := ⟨1, ⟨sT, 0, 0, 12, 0⟩, ⟨⟨0, 1⟩, ⟨3, 4⟩⟩⟩

/-- The window `design_scheme` builds for region 2 of the `sT` run. -/
def wT : Window := ⟨sT, 2, 2, 12, 2⟩

/-- Scheme for the bounded-search runs: reference length 12, amplicon
size exactly 10, step distance 1. -/
def s4 : Scheme := ⟨12, 10, 10, 2, 0, 1⟩

/-- A window with no room to step left and two steps of room to the
right. -/
def w4 : Window := ⟨s4, 0, 0, 12, 0⟩

/-! ### Helper lemmas -/

/-- A successful left step moves `slice_start` down by the step
distance, and certifies the room it checked for. -/
theorem step_left_ok (w w' : Window) (h : w.step_left = (w', none)) :
    w' = { w with slice_start := w.slice_start - w.scheme.step_distance } ∧
    w.left_limit ≤ w.slice_start - w.scheme.step_distance := by
  simp only [Window.step_left] at h
  split at h
  · exact absurd (Prod.ext_iff.mp h).2 (by simp)
  · next hc => exact ⟨((Prod.ext_iff.mp h).1).symm, not_lt.mp hc⟩

/-- A successful right step moves `slice_start` up by the step
distance, and certifies the room it checked for. -/
theorem step_right_ok (w w' : Window) (h : w.step_right = (w', none)) :
    w' = { w with slice_start := w.slice_start + w.scheme.step_distance } ∧
    w.slice_end + w.scheme.step_distance ≤ w.right_limit := by
  simp only [Window.step_right] at h
  split at h
  · exact absurd (Prod.ext_iff.mp h).2 (by simp)
  · next hc => exact ⟨((Prod.ext_iff.mp h).1).symm, not_lt.mp hc⟩

/-- A list with a known head decomposes as a cons. -/
theorem head?_decomp {α : Type _} {l : List α} {a : α}
    (h : l.head? = some a) : ∃ t, l = a :: t := by
  cases l <;> simp_all

/-- Under an oracle that only reports insufficiency or success (as the
genuine `_find_primers_for_slice` does), `find_primers` can only
succeed, raise `NoSuitablePrimersError`, or run out of fuel — in
particular it never lets a stepping `SliceOutOfBoundsError` or an
`InsufficientPrimersError` escape. -/
theorem find_go_classify (o : SliceOracle)
    (ho : ∀ x, o x = .error .insufficientPrimers ∨ ∃ p, o x = .ok p) :
    ∀ (f : Nat) (ex : Bool) (w : Window),
      (∃ w' p, (find_primers_go o f ex w).1 = .ok (w', p)) ∨
      (find_primers_go o f ex w).1 = .error .noSuitablePrimers ∨
      (find_primers_go o f ex w).1 = .error .fuelExhausted := by
  intro f
  induction f with
  | zero => intro ex w; right; right; rfl
  | succ f ih =>
    intro ex w
    rcases ho w.slice_start with hx | ⟨p, hx⟩
    · cases ex
      · rcases hsl : w.step_left with ⟨w', oe⟩
        cases oe
        · simpa only [find_primers_go, hx, hsl, Bool.false_eq_true,
            if_false] using ih false w'
        · simpa only [find_primers_go, hx, hsl, Bool.false_eq_true,
            if_false] using ih true w.reset_slice
      · rcases hsr : w.step_right with ⟨w', oe⟩
        cases oe
        · simpa only [find_primers_go, hx, hsr, if_true] using ih true w'
        · right; left
          simp only [find_primers_go, hx, hsr, if_true]
    · left
      exact ⟨w, p, by simp only [find_primers_go, hx]⟩

/-- Right-stepping phase of `find_primers` terminates: with positive
step distance, fuel exceeding the remaining room to the right limit is
enough to reach success or `NoSuitablePrimersError`. -/
theorem find_go_right_term (o : SliceOracle)
    (ho : ∀ x, o x = .error .insufficientPrimers ∨ ∃ p, o x = .ok p) :
    ∀ (f : Nat) (w : Window), 1 ≤ w.scheme.step_distance →
      (w.right_limit - w.slice_end).toNat < f →
      (∃ w' p, (find_primers_go o f true w).1 = .ok (w', p)) ∨
      (find_primers_go o f true w).1 = .error .noSuitablePrimers := by
  intro f
  induction f with
  | zero => intro w _ hf; omega
  | succ f ih =>
    intro w hd hf
    rcases ho w.slice_start with hx | ⟨p, hx⟩
    · rcases hsr : w.step_right with ⟨w', oe⟩
      cases oe
      · obtain ⟨hw', hle⟩ := step_right_ok w w' hsr
        have hd' : 1 ≤ w'.scheme.step_distance := by rw [hw']; exact hd
        have hf' : (w'.right_limit - w'.slice_end).toNat < f := by
          subst hw'
          simp only [Window.slice_end] at *
          omega
        simpa only [find_primers_go, hx, hsr, if_true] using ih w' hd' hf'
      · right
        simp only [find_primers_go, hx, hsr, if_true]
    · left
      exact ⟨w, p, by simp only [find_primers_go, hx]⟩

/-- Left-then-right search of `find_primers` terminates: with positive
step distance, fuel exceeding the room to the left limit plus the
post-reset room to the right limit is enough to reach success or
`NoSuitablePrimersError`. -/
theorem find_go_left_term (o : SliceOracle)
    (ho : ∀ x, o x = .error .insufficientPrimers ∨ ∃ p, o x = .ok p) :
    ∀ (f : Nat) (w : Window), 1 ≤ w.scheme.step_distance →
      (w.slice_start - w.left_limit).toNat +
        (w.right_limit - (w.initial_slice_start + w.scheme.amplicon_size_max)).toNat
        + 1 < f →
      (∃ w' p, (find_primers_go o f false w).1 = .ok (w', p)) ∨
      (find_primers_go o f false w).1 = .error .noSuitablePrimers := by
  intro f
  induction f with
  | zero => intro w _ hf; omega
  | succ f ih =>
    intro w hd hf
    rcases ho w.slice_start with hx | ⟨p, hx⟩
    · rcases hsl : w.step_left with ⟨w', oe⟩
      cases oe
      · obtain ⟨hw', hge⟩ := step_left_ok w w' hsl
        have hd' : 1 ≤ w'.scheme.step_distance := by rw [hw']; exact hd
        have hf' : (w'.slice_start - w'.left_limit).toNat +
            (w'.right_limit -
              (w'.initial_slice_start + w'.scheme.amplicon_size_max)).toNat
            + 1 < f := by
          subst hw'
          simp only [] at *
          omega
        simpa only [find_primers_go, hx, hsl, Bool.false_eq_true, if_false]
          using ih w' hd' hf'
      · have hterm := find_go_right_term o ho f w.reset_slice
          (by simpa only [Window.reset_slice] using hd)
          (by simp only [Window.reset_slice, Window.slice_end]; omega)
        simpa only [find_primers_go, hx, hsl, Bool.false_eq_true, if_false]
          using hterm
    · left
      exact ⟨w, p, by simp only [find_primers_go, hx]⟩

/-- The earliest-minimum selector returns nothing exactly on the empty
list. -/
theorem firstMinPair_eq_none (l : List CandidatePrimerPair) :
    firstMinPair l = none ↔ l = [] := by
  cases l with
  | nil => simp [firstMinPair]
  | cons a l =>
    simp only [firstMinPair]
    rcases firstMinPair l with _ | m <;> simp
    split <;> simp

/-- The source's selection (stable sort by combined penalty, then take
the head) computes the earliest pair of minimal combined penalty. -/
theorem pickTop_eq_firstMinPair (l : List CandidatePrimerPair) :
    pickTop l = firstMinPair l := by
  induction l with
  | nil => rfl
  | cons a l ih =>
    unfold pickTop sortPairs at *
    simp only [List.insertionSort]
    rcases hs : List.insertionSort
        (fun x y : CandidatePrimerPair => x.combined_penalty ≤ y.combined_penalty) l
      with _ | ⟨b, t⟩
    · have hl : l = [] := by
        have hlen := List.length_insertionSort
          (fun x y : CandidatePrimerPair => x.combined_penalty ≤ y.combined_penalty) l
        rw [hs] at hlen
        simpa using hlen.symm
      subst hl
      simp [firstMinPair, List.orderedInsert]
    · rw [hs] at ih
      simp only [List.orderedInsert]
      rw [firstMinPair, ← ih]
      simp only [List.head?_cons]
      by_cases hc : a.combined_penalty ≤ b.combined_penalty <;> simp [hc]

/-- Properties of the earliest-minimum selector: the selected pair
occurs in the list, is minimal, and everything before its first
occurrence is strictly worse. -/
theorem firstMinPair_spec (l : List CandidatePrimerPair)
    (m : CandidatePrimerPair) (h : firstMinPair l = some m) :
    ∃ l₁ l₂, l = l₁ ++ m :: l₂ ∧
      (∀ p ∈ l, m.combined_penalty ≤ p.combined_penalty) ∧
      (∀ p ∈ l₁, m.combined_penalty < p.combined_penalty) := by
  induction l generalizing m with
  | nil => simp [firstMinPair] at h
  | cons a l ih =>
    rcases hm : firstMinPair l with _ | m'
    · simp only [firstMinPair, hm, Option.some.injEq] at h
      subst h
      have hl : l = [] := (firstMinPair_eq_none l).mp hm
      subst hl
      exact ⟨[], [], rfl, by simp, by simp⟩
    · simp only [firstMinPair, hm] at h
      obtain ⟨l₁, l₂, hdecomp, hmin, hstrict⟩ := ih m' hm
      by_cases hle : a.combined_penalty ≤ m'.combined_penalty
      · rw [if_pos hle] at h
        injection h with h
        subst h
        refine ⟨[], l, rfl, ?_, by simp⟩
        intro p hp
        rcases List.mem_cons.mp hp with hp | hp
        · exact hp ▸ le_refl _
        · exact le_trans hle (hmin p hp)
      · rw [if_neg hle] at h
        injection h with h
        subst h
        have hlt : m'.combined_penalty < a.combined_penalty := lt_of_not_le hle
        refine ⟨a :: l₁, l₂, by rw [hdecomp, List.cons_append], ?_, ?_⟩
        · intro p hp
          rcases List.mem_cons.mp hp with hp | hp
          · exact hp ▸ le_of_lt hlt
          · exact hmin p hp
        · intro p hp
          rcases List.mem_cons.mp hp with hp | hp
          · exact hp ▸ hlt
          · exact hstrict p hp

/-- Unfolding equation for the candidate-filter cursor loop (the
definition is by well-founded recursion, so `rfl` does not unfold
it). -/
theorem align_filter_go_eq (l : List CPrimer) (i : Nat) :
    align_filter_go l i =
      if h : i < l.length then
        if badPrimer (l.get ⟨i, h⟩) then
          align_filter_go (l.eraseIdx i) (i + 1)
        else
          align_filter_go l (i + 1)
      else l := by
  rw [align_filter_go]

/-- Window construction only ever fails with the bounds error. -/
theorem mkWindow_err (s : Scheme) (ll ss : Int) (orl : Option Int) (e : Err)
    (h : mkWindow s ll ss orl = .error e) : e = .sliceOutOfBounds := by
  simp only [mkWindow] at h
  split at h
  · exact (Except.error.inj h).symm
  · exact absurd h (by simp)

/-- A successfully constructed window carries the arguments it was
built from. -/
theorem mkWindow_ok_fields (s : Scheme) (ll ss : Int) (orl : Option Int)
    (w : Window) (h : mkWindow s ll ss orl = .ok w) :
    w.left_limit = ll ∧ w.scheme = s ∧ w.slice_start = ss ∧
    w.initial_slice_start = ss := by
  simp only [mkWindow] at h
  split at h
  · exact absurd h (by simp)
  · cases Except.ok.inj h
    exact ⟨rfl, rfl, rfl, rfl⟩

/-- The first component of the per-iteration plan is always the
`left_limit` computation. -/
theorem planFor_fst (s : Scheme) (regions : List Region) (region_num : Nat) :
    (planFor s regions region_num).1 = leftLimitFor regions region_num := by
  by_cases h : region_num = 1
  · simp [planFor, h]
  · rcases hidx : regions[regions.length - 1]? with _ | r <;>
      simp [planFor, h, hidx]

/-- For a region with two same-pool predecessors, the computed
`left_limit` is at least one past the previous same-pool region's
right-primer start (provided the immediately preceding region's left
primer has `start ≤ end`). -/
theorem leftLimitFor_ge (acc : List Region) (prevR pip : Region)
    (hlen : 2 ≤ acc.length)
    (hprev : acc[acc.length - 1]? = some prevR)
    (hpip : acc[acc.length - 2]? = some pip)
    (hple : prevR.top_pair.left.start ≤ prevR.top_pair.left.end_) :
    pip.top_pair.right.start + 1 ≤ leftLimitFor acc (acc.length + 1) := by
  have h1 : acc.length + 1 ≠ 1 := by omega
  have h2 : acc.length + 1 ≠ 2 := by omega
  simp only [leftLimitFor, h1, if_false, hprev, h2, hpip]
  split
  · next hgap => omega
  · omega

/-- A successful `find_primers` run preserves the window's `left_limit`
and scheme, and its selected pair is the oracle's answer at the final
slice position. -/
theorem find_go_ok (o : SliceOracle) :
    ∀ (f : Nat) (ex : Bool) (w w' : Window) (p : PairPos),
      (find_primers_go o f ex w).1 = .ok (w', p) →
      w'.left_limit = w.left_limit ∧ w'.scheme = w.scheme ∧
      o w'.slice_start = .ok p := by
  intro f
  induction f with
  | zero => intro ex w w' p h; exact absurd h (by simp [find_primers_go])
  | succ f ih =>
    intro ex w w' p h
    rcases hx : o w.slice_start with e | q
    · cases e with
      | insufficientPrimers =>
        cases ex
        · rcases hsl : w.step_left with ⟨w'', oe⟩
          cases oe
          · have h' : (find_primers_go o f false w'').1 = .ok (w', p) := by
              simpa only [find_primers_go, hx, hsl, Bool.false_eq_true,
                if_false] using h
            obtain ⟨h1, h2, h3⟩ := ih false w'' w' p h'
            obtain ⟨hw'', -⟩ := step_left_ok w w'' hsl
            subst hw''
            exact ⟨h1, h2, h3⟩
          · have h' : (find_primers_go o f true w.reset_slice).1 = .ok (w', p) := by
              simpa only [find_primers_go, hx, hsl, Bool.false_eq_true,
                if_false] using h
            obtain ⟨h1, h2, h3⟩ := ih true w.reset_slice w' p h'
            exact ⟨h1, h2, h3⟩
        · rcases hsr : w.step_right with ⟨w'', oe⟩
          cases oe
          · have h' : (find_primers_go o f true w'').1 = .ok (w', p) := by
              simpa only [find_primers_go, hx, hsr, if_true] using h
            obtain ⟨h1, h2, h3⟩ := ih true w'' w' p h'
            obtain ⟨hw'', -⟩ := step_right_ok w w'' hsr
            subst hw''
            exact ⟨h1, h2, h3⟩
          · exact absurd (by simpa only [find_primers_go, hx, hsr, if_true] using h)
              (by simp)
      | sliceOutOfBounds =>
        exact absurd (by simpa only [find_primers_go, hx] using h) (by simp)
      | noSuitablePrimers =>
        exact absurd (by simpa only [find_primers_go, hx] using h) (by simp)
      | fuelExhausted =>
        exact absurd (by simpa only [find_primers_go, hx] using h) (by simp)
    · have h' : (Except.ok (w, q) : Except Err (Window × PairPos)) = .ok (w', p) := by
        simpa only [find_primers_go, hx] using h
      obtain ⟨hw, hq⟩ := Prod.ext_iff.mp (Except.ok.inj h')
      subst hw
      subst hq
      exact ⟨rfl, rfl, hx⟩

/-- Every branch of a fueled `find_primers` iteration records the
attempt at the current slice first, so a run that does not end by fuel
exhaustion has a trace starting with that attempt. -/
theorem find_go_trace_head (o : SliceOracle) (f : Nat) (ex : Bool)
    (w : Window) (h : (find_primers_go o f ex w).1 ≠ .error Err.fuelExhausted) :
    (find_primers_go o f ex w).2.head? = some (Ev.att w.slice_start) := by
  cases f with
  | zero => exact absurd rfl h
  | succ f =>
    rcases hx : o w.slice_start with e | p
    · cases e with
      | insufficientPrimers =>
        cases ex
        · rcases hsl : w.step_left with ⟨w', oe⟩
          cases oe <;>
            simp only [find_primers_go, hx, hsl, Bool.false_eq_true,
              if_false, List.head?_cons]
        · rcases hsr : w.step_right with ⟨w', oe⟩
          cases oe <;>
            simp only [find_primers_go, hx, hsr, if_true, List.head?_cons]
      | sliceOutOfBounds => simp only [find_primers_go, hx, List.head?_cons]
      | noSuitablePrimers => simp only [find_primers_go, hx, List.head?_cons]
      | fuelExhausted => simp only [find_primers_go, hx, List.head?_cons]
    · simp only [find_primers_go, hx, List.head?_cons]

/-- If the left limit is hit during the left-stepping phase, the trace
decomposes as: the attempt at the start slice, further attempts only,
the `exhaust` marker, and — immediately after it — a fresh attempt at
the window's construction-time (initial) slice position. -/
theorem find_go_left_exhaust (o : SliceOracle) :
    ∀ (f : Nat) (w : Window),
      (find_primers_go o f false w).1 ≠ .error Err.fuelExhausted →
      Ev.exhaust ∈ (find_primers_go o f false w).2 →
      ∃ pre post,
        (find_primers_go o f false w).2 =
          Ev.att w.slice_start :: pre ++ Ev.exhaust ::
            Ev.att w.initial_slice_start :: post ∧
        ∀ e ∈ pre, ∃ x, e = Ev.att x := by
  intro f
  induction f with
  | zero => intro w h _; exact absurd rfl h
  | succ f ih =>
    intro w h hmem
    rcases hx : o w.slice_start with e | p
    · cases e with
      | insufficientPrimers =>
        rcases hsl : w.step_left with ⟨w', oe⟩
        cases oe
        · have h' : (find_primers_go o f false w').1 ≠ .error Err.fuelExhausted := by
            simpa only [find_primers_go, hx, hsl, Bool.false_eq_true, if_false]
              using h
          have hmem' : Ev.exhaust ∈ (find_primers_go o f false w').2 := by
            simp only [find_primers_go, hx, hsl, Bool.false_eq_true, if_false,
              List.mem_cons] at hmem
            rcases hmem with hmem | hmem
            · exact absurd hmem (by simp)
            · exact hmem
          obtain ⟨pre, post, hdec, hall⟩ := ih w' h' hmem'
          have hini : w'.initial_slice_start = w.initial_slice_start := by
            obtain ⟨hw', -⟩ := step_left_ok w w' hsl
            rw [hw']
          refine ⟨Ev.att w'.slice_start :: pre, post, ?_, ?_⟩
          · simp only [find_primers_go, hx, hsl, Bool.false_eq_true, if_false]
            rw [hdec, hini]
            simp [List.cons_append]
          · intro e he
            rcases List.mem_cons.mp he with he | he
            · exact ⟨w'.slice_start, he⟩
            · exact hall e he
        · have h' : (find_primers_go o f true w.reset_slice).1 ≠
              .error Err.fuelExhausted := by
            simpa only [find_primers_go, hx, hsl, Bool.false_eq_true, if_false]
              using h
          obtain ⟨t, ht⟩ := head?_decomp (find_go_trace_head o f true w.reset_slice h')
          refine ⟨[], t, ?_, by simp⟩
          simp only [find_primers_go, hx, hsl, Bool.false_eq_true, if_false,
            List.nil_append]
          rw [ht]
          rfl
      | sliceOutOfBounds =>
        simp only [find_primers_go, hx, List.mem_singleton] at hmem
        exact absurd hmem (by simp)
      | noSuitablePrimers =>
        simp only [find_primers_go, hx, List.mem_singleton] at hmem
        exact absurd hmem (by simp)
      | fuelExhausted =>
        simp only [find_primers_go, hx, List.mem_singleton] at hmem
        exact absurd hmem (by simp)
    · simp only [find_primers_go, hx, List.mem_singleton] at hmem
      exact absurd hmem (by simp)

/-- Every error escaping the `design_scheme` loop is either the
re-raised `NoSuitablePrimersError` of region 1, a construction-time
`SliceOutOfBoundsError`, or the fuel artefact. -/
theorem design_loop_err (s : Scheme) (o : SliceOracle) (ifuel : Nat)
    (ho : ∀ x, o x = .error .insufficientPrimers ∨ ∃ p, o x = .ok p) :
    ∀ (fuel : Nat) (acc : List Region) (events : List (Int × Int))
      (rn : Nat) (e : Err),
      design_loop s o ifuel fuel acc events rn = .error e →
      e = .noSuitablePrimers ∨ e = .sliceOutOfBounds ∨ e = .fuelExhausted := by
  intro fuel
  induction fuel with
  | zero =>
    intro acc events rn e h
    simp only [design_loop] at h
    exact Or.inr (Or.inr (Except.error.inj h).symm)
  | succ fuel ih =>
    intro acc events rn e h
    simp only [design_loop] at h
    split at h
    · next e' hw =>
      refine Or.inr (Or.inl ?_)
      rw [← Except.error.inj h]
      exact mkWindow_err _ _ _ _ e' hw
    · next w hw =>
      split at h
      · split at h
        · exact Or.inl (Except.error.inj h).symm
        · exact absurd h (by simp)
      · next e' heq =>
        simp only [find_primers] at heq
        rcases find_go_classify o ho ifuel false w with ⟨w', p, hc⟩ | hc | hc
        · rw [hc] at heq
          exact absurd heq (by simp)
        · rw [hc] at heq
          rw [← Except.error.inj h, ← Except.error.inj heq]
          exact Or.inl rfl
        · rw [hc] at heq
          rw [← Except.error.inj h, ← Except.error.inj heq]
          exact Or.inr (Or.inr rfl)
      · split at h
        · exact absurd h (by simp)
        · exact ih _ _ _ _ h

/-- Loop invariant behind the same-pool no-overlap property: if the
accumulated regions already satisfy it (and their left primers are
well-oriented), every normally returned region list satisfies it. -/
theorem design_loop_pool_inv (s : Scheme) (o : SliceOracle) (ifuel : Nat)
    (hp : ∀ x p, o x = .ok p → p.left.start ≤ p.left.end_) :
    ∀ (fuel : Nat) (acc : List Region) (events : List (Int × Int))
      (rn : Nat) (rs : List Region) (evs : List (Int × Int)),
      rn = acc.length →
      (∀ r ∈ acc, r.top_pair.left.start ≤ r.top_pair.left.end_) →
      (∀ i a b, acc[i]? = some a → acc[i + 2]? = some b →
        a.top_pair.right.start + 1 ≤ b.window.left_limit) →
      design_loop s o ifuel fuel acc events rn = .ok (rs, evs) →
      (∀ i a b, rs[i]? = some a → rs[i + 2]? = some b →
        a.top_pair.right.start + 1 ≤ b.window.left_limit) := by
  intro fuel
  induction fuel with
  | zero =>
    intro acc events rn rs evs _ _ _ h
    exact absurd h (by simp [design_loop])
  | succ fuel ih =>
    intro acc events rn rs evs hrn hAll hInv h
    subst hrn
    simp only [design_loop] at h
    split at h
    · exact absurd h (by simp)
    · next w hw =>
      split at h
      · split at h
        · exact absurd h (by simp)
        · obtain ⟨hrs, -⟩ := Prod.ext_iff.mp (Except.ok.inj h)
          subst hrs
          exact hInv
      · exact absurd h (by simp)
      · next w' pair heq =>
        simp only [find_primers] at heq
        obtain ⟨hll, hsch, hora⟩ := find_go_ok o ifuel false w w' pair heq
        obtain ⟨hwll, -, -, -⟩ := mkWindow_ok_fields _ _ _ _ _ hw
        have hple : pair.left.start ≤ pair.left.end_ := hp _ _ hora
        have hAll' : ∀ r ∈ acc ++ [(⟨acc.length + 1, w', pair⟩ : Region)],
            r.top_pair.left.start ≤ r.top_pair.left.end_ := by
          intro r hr
          rcases List.mem_append.mp hr with hr | hr
          · exact hAll r hr
          · rw [List.mem_singleton.mp hr]
            exact hple
        have hInv' : ∀ i a b,
            (acc ++ [(⟨acc.length + 1, w', pair⟩ : Region)])[i]? = some a →
            (acc ++ [(⟨acc.length + 1, w', pair⟩ : Region)])[i + 2]? = some b →
            a.top_pair.right.start + 1 ≤ b.window.left_limit := by
          intro i a b ha hb
          have hbd : i + 2 < acc.length + 1 := by
            have hx := List.getElem?_eq_some.mp hb
            simpa using hx.1
          by_cases hcase : i + 2 < acc.length
          · rw [List.getElem?_append_left (by omega)] at ha
            rw [List.getElem?_append_left hcase] at hb
            exact hInv i a b ha hb
          · have hieq : i + 2 = acc.length := by omega
            rw [hieq, List.getElem?_concat_length] at hb
            have hb' : b = ⟨acc.length + 1, w', pair⟩ := (Option.some.inj hb).symm
            rw [List.getElem?_append_left (by omega)] at ha
            have hlen2 : 2 ≤ acc.length := by omega
            have hprevlt : acc.length - 1 < acc.length := by omega
            have hprevmem : acc[acc.length - 1] ∈ acc := List.getElem_mem hprevlt
            have hpip : acc[acc.length - 2]? = some a := by
              rw [show acc.length - 2 = i by omega]
              exact ha
            have hge := leftLimitFor_ge acc acc[acc.length - 1] a hlen2
              (List.getElem?_eq_getElem hprevlt) hpip (hAll _ hprevmem)
            rw [hb']
            show a.top_pair.right.start + 1 ≤ w'.left_limit
            rw [hll, hwll, planFor_fst]
            exact hge
        split at h
        · obtain ⟨hrs, -⟩ := Prod.ext_iff.mp (Except.ok.inj h)
          subst hrs
          exact hInv'
        · exact ih (acc ++ [⟨acc.length + 1, w', pair⟩]) _ (acc.length + 1)
            rs evs (by simp) hAll' hInv' h

/-! ### C2 -/

/-- C2 counterexample: the `Region` construction on line 111 of
multiplex.py sits outside the `try` block, so with a reference (length
100) shorter than the maximum amplicon size (400) the
`SliceOutOfBoundsError` raised by `Window.__init__` for region 1
escapes `design_scheme` — an error other than `NoSuitablePrimersError`
crosses the Region-to-orchestrator boundary. -/
theorem c2_counterexample :
    design_scheme s2 oIns 5 5 = .error Err.sliceOutOfBounds ∧
    Err.sliceOutOfBounds ≠ Err.noSuitablePrimers :=
  ⟨rfl, by decide⟩

/-- C2 (amended): a bounds error arising from stepping is always caught
and converted inside `Region.find_primers` (it never escapes as
`SliceOutOfBoundsError` or `InsufficientPrimersError`), but a bounds
error raised by a region's `Window` construction is not caught, so the
errors that can cross the `design_scheme` boundary are
`NoSuitablePrimersError` and the construction-time
`SliceOutOfBoundsError` (plus the fuel artefact of the embedding). -/
theorem c2_error_propagation :
    (∀ (o : SliceOracle) (f : Nat) (ex : Bool) (w : Window),
      (∀ x, o x = .error Err.insufficientPrimers ∨ ∃ p, o x = .ok p) →
      (find_primers_go o f ex w).1 ≠ .error Err.sliceOutOfBounds ∧
      (find_primers_go o f ex w).1 ≠ .error Err.insufficientPrimers) ∧
    (∀ (s : Scheme) (o : SliceOracle) (ifuel fuel : Nat) (e : Err),
      (∀ x, o x = .error Err.insufficientPrimers ∨ ∃ p, o x = .ok p) →
      design_scheme s o ifuel fuel = .error e →
      e = Err.noSuitablePrimers ∨ e = Err.sliceOutOfBounds ∨
        e = Err.fuelExhausted) := by
  constructor
  · intro o f ex w ho
    rcases find_go_classify o ho f ex w with ⟨w', p, hc⟩ | hc | hc <;>
      rw [hc] <;> exact ⟨by simp, by simp⟩
  · intro s o ifuel fuel e ho h
    exact design_loop_err s o ifuel ho fuel [] [] 0 e h

/-- Witness for C2: an always-insufficient oracle on the `w4` window
ends without leaking a stepping bounds error, and the `sT` run that
fails on region 1 propagates exactly `NoSuitablePrimersError`. -/
theorem c2_witness :
    ((find_primers_go oIns 4 false w4).1 ≠ .error Err.sliceOutOfBounds ∧
      (find_primers_go oIns 4 false w4).1 ≠ .error Err.insufficientPrimers) ∧
    (Err.noSuitablePrimers = Err.noSuitablePrimers ∨
      Err.noSuitablePrimers = Err.sliceOutOfBounds ∨
      Err.noSuitablePrimers = Err.fuelExhausted) :=
  ⟨c2_error_propagation.1 oIns 4 false w4 (fun _ => Or.inl rfl),
   c2_error_propagation.2 sT oIns 4 3 Err.noSuitablePrimers
     (fun _ => Or.inl rfl) rfl⟩

/-! ### C3 -/

/-- C3: at the iteration where `find_primers` raises
`NoSuitablePrimersError`, `design_scheme` re-raises it exactly when the
failing region is region 1 (and `scheme.regions` stays empty);
for any later region it returns normally with precisely the previously
accumulated regions, in order, and still emits the completion progress
call `(ref_len, ref_len)`. -/
theorem c3_no_suitable_boundary (s : Scheme) (o : SliceOracle)
    (ifuel fuel : Nat) (acc : List Region) (events : List (Int × Int))
    (rn : Nat) (w : Window)
    (hw : mkWindow s (planFor s acc (rn + 1)).1 (planFor s acc (rn + 1)).2.1
      none = .ok w)
    (hf : (find_primers o ifuel w).1 = .error Err.noSuitablePrimers) :
    (design_loop s o ifuel (fuel + 1) acc events rn =
      if rn = 0 then .error Err.noSuitablePrimers
      else .ok (acc, events ++ [(s.ref_len, s.ref_len)])) ∧
    regionsAfter (design_loop s o ifuel (fuel + 1) acc events rn) =
      if rn = 0 then [] else acc := by
  have hmain : design_loop s o ifuel (fuel + 1) acc events rn =
      if rn = 0 then .error Err.noSuitablePrimers
      else .ok (acc, events ++ [(s.ref_len, s.ref_len)]) := by
    cases rn with
    | zero => simp [design_loop, hw, hf]
    | succ n => simp [design_loop, hw, hf]
  refine ⟨hmain, ?_⟩
  rw [hmain]
  cases rn with
  | zero => simp [regionsAfter]
  | succ n => simp [regionsAfter]

/-- Witness for C3: in the `sT` run, region 2 (so `rn = 1`) fails with
`NoSuitablePrimersError` and the loop returns the single previously
designed region together with the completion progress call. -/
theorem c3_witness :
    (design_loop sT oIns 4 3 [rT1] [] 1 =
      if 1 = 0 then .error Err.noSuitablePrimers
      else .ok ([rT1], [] ++ [(sT.ref_len, sT.ref_len)])) ∧
    regionsAfter (design_loop sT oIns 4 3 [rT1] [] 1) =
      if 1 = 0 then [] else [rT1] :=
  c3_no_suitable_boundary sT oIns 4 2 [rT1] [] 1 wT rfl rfl

/-! ### C5 -/

/-- C5: in every scheme produced by a completed `design_scheme` run, for
all consecutive regions of the same pool (indices differing by 2 in the
returned list), the later region's window `left_limit` is at least the
earlier region's right-primer start + 1 — no same-pool overlap — under
the hypothesis that every selected pair's left primer has a start not
after its end. -/
theorem c5_no_same_pool_overlap (s : Scheme) (o : SliceOracle)
    (ifuel fuel : Nat) (rs : List Region) (evs : List (Int × Int))
    (hp : ∀ x p, o x = .ok p → p.left.start ≤ p.left.end_)
    (hrun : design_scheme s o ifuel fuel = .ok (rs, evs)) :
    ∀ i a b, rs[i]? = some a → rs[i + 2]? = some b →
      a.top_pair.right.start + 1 ≤ b.window.left_limit :=
  design_loop_pool_inv s o ifuel hp fuel [] [] 0 rs evs rfl
    (by intro r hr; simp at hr)
    (by intro i a b ha _; simp at ha)
    hrun

/-- Witness for C5: the completed four-region `s5` run; regions 1 and 3
share pool 1, and region 3's window starts one past region 1's
right-primer start. -/
theorem c5_witness :
    r5_1.top_pair.right.start + 1 ≤ r5_3.window.left_limit :=
  c5_no_same_pool_overlap s5 o5 3 6 rs5 evs5
    (by
      intro x p h
      simp only [o5] at h
      split_ifs at h <;> injection h with h <;> subst h <;> decide)
    rfl 0 r5_1 r5_3 rfl rfl

/-! ### C4 -/

/-- C4: with positive step distance `find_primers` terminates — an
explicit fuel bound computed from the window's fixed limits (each
direction is bounded and monotone) suffices for the search to end in
either success or the terminal `NoSuitablePrimersError`, never in fuel
exhaustion. -/
theorem c4_find_primers_terminates (o : SliceOracle) (w : Window)
    (hd : 1 ≤ w.scheme.step_distance)
    (ho : ∀ x, o x = .error Err.insufficientPrimers ∨ ∃ p, o x = .ok p) :
    (∃ w' p,
      (find_primers o
        ((w.slice_start - w.left_limit).toNat +
          (w.right_limit -
            (w.initial_slice_start + w.scheme.amplicon_size_max)).toNat + 2)
        w).1 = .ok (w', p)) ∨
    (find_primers o
        ((w.slice_start - w.left_limit).toNat +
          (w.right_limit -
            (w.initial_slice_start + w.scheme.amplicon_size_max)).toNat + 2)
        w).1 = .error Err.noSuitablePrimers :=
  find_go_left_term o ho _ w hd (by omega)

/-- Witness for C4: the `w4` window (step 1, two steps of room to the
right) with an always-insufficient oracle exhausts both directions and
ends in `NoSuitablePrimersError` within the computed fuel bound. -/
theorem c4_witness :
    (∃ w' p, (find_primers oIns 4 w4).1 = .ok (w', p)) ∨
    (find_primers oIns 4 w4).1 = .error Err.noSuitablePrimers :=
  c4_find_primers_terminates oIns w4 (by decide) (fun _ => Or.inl rfl)

/-! ### C10 -/

/-- C10: on every run of `find_primers` (started, as `Region` does, at
the construction-time slice) in which the left direction becomes
exhausted, the slice is reset and the single-slice search re-attempted
at the original position before any right step: the trace splits at the
`exhaust` marker, everything before it is attempts only (no right
step), the attempt immediately after it is at the initial position, and
— since the very first attempt is also at the initial position — that
position is searched at least twice. -/
theorem c10_reset_reattempt (o : SliceOracle) (fuel : Nat) (w : Window)
    (hinit : w.slice_start = w.initial_slice_start)
    (hres : (find_primers o fuel w).1 ≠ .error Err.fuelExhausted)
    (hex : Ev.exhaust ∈ (find_primers o fuel w).2) :
    2 ≤ (find_primers o fuel w).2.count (Ev.att w.initial_slice_start) ∧
    ∃ pre post,
      (find_primers o fuel w).2 =
        pre ++ Ev.exhaust :: Ev.att w.initial_slice_start :: post ∧
      (∀ e ∈ pre, ∃ x, e = Ev.att x) ∧
      pre.head? = some (Ev.att w.initial_slice_start) := by
  simp only [find_primers] at hres hex ⊢
  obtain ⟨pre, post, hdec, hall⟩ := find_go_left_exhaust o fuel w hres hex
  rw [hinit] at hdec
  refine ⟨?_, Ev.att w.initial_slice_start :: pre, post,
    by rw [hdec, List.cons_append], ?_, by simp⟩
  · rw [hdec]
    simp only [List.count_cons, List.count_append, beq_iff_eq, beq_self_eq_true,
      if_true, List.count_nil]
    simp only [reduceCtorEq, if_false]
    omega
  · intro e he
    rcases List.mem_cons.mp he with he | he
    · exact ⟨w.initial_slice_start, he⟩
    · exact hall e he

/-- Witness for C10: the `w4` run with an always-insufficient oracle
hits the left limit immediately, resets, and re-attempts slice 0 before
stepping right. -/
theorem c10_witness :
    2 ≤ (find_primers oIns 4 w4).2.count (Ev.att w4.initial_slice_start) ∧
    ∃ pre post,
      (find_primers oIns 4 w4).2 =
        pre ++ Ev.exhaust :: Ev.att w4.initial_slice_start :: post ∧
      (∀ e ∈ pre, ∃ x, e = Ev.att x) ∧
      pre.head? = some (Ev.att w4.initial_slice_start) :=
  c10_reset_reattempt oIns 4 w4 rfl
    (fun h => absurd (Except.error.inj h) (by decide))
    (by decide)

/-! ### C7 -/

/-- C7: after a successful single-slice search the selected pair is of
minimal combined penalty among the full left-candidate-major cross
product of the surviving candidates, and when several pairs tie it is
the earliest in construction order (every pair before it in the cross
product is strictly worse) — the stable sort applies no further
tie-break. -/
theorem c7_top_pair_selection (cp : CPrimer → CPrimer → Rat)
    (cand0 cand1 : List CPrimer) (t : CandidatePrimerPair)
    (h : find_primers_for_slice cp cand0 cand1 = .ok t) :
    (∀ p ∈ crossPairs cp (align_filter cand0) (align_filter cand1),
      t.combined_penalty ≤ p.combined_penalty) ∧
    ∃ l₁ l₂,
      crossPairs cp (align_filter cand0) (align_filter cand1) = l₁ ++ t :: l₂ ∧
      ∀ p ∈ l₁, t.combined_penalty < p.combined_penalty := by
  simp only [find_primers_for_slice] at h
  split at h
  · exact absurd h (by simp)
  · split at h
    case h_2 => exact absurd h (by simp)
    case h_1 t' heq =>
      injection h with h
      subst h
      rw [pickTop_eq_firstMinPair] at heq
      obtain ⟨l₁, l₂, hdecomp, hmin, hstrict⟩ := firstMinPair_spec _ _ heq
      exact ⟨fun p hp => hmin p (hdecomp ▸ hp), l₁, l₂, hdecomp, hstrict⟩

/-- Witness for C7: with one surviving left candidate and two tying
right candidates, the selected pair is the first of the two tying cross
pairs. -/
theorem c7_witness :
    (∀ p ∈ crossPairs cpFst (align_filter [gPrimer]) (align_filter [gR1, gR2]),
      (⟨gPrimer, gR1, 1⟩ : CandidatePrimerPair).combined_penalty ≤ p.combined_penalty) ∧
    ∃ l₁ l₂,
      crossPairs cpFst (align_filter [gPrimer]) (align_filter [gR1, gR2]) =
        l₁ ++ (⟨gPrimer, gR1, 1⟩ : CandidatePrimerPair) :: l₂ ∧
      ∀ p ∈ l₁,
        (⟨gPrimer, gR1, 1⟩ : CandidatePrimerPair).combined_penalty <
          p.combined_penalty :=
  c7_top_pair_selection cpFst [gPrimer] [gR1, gR2] ⟨gPrimer, gR1, 1⟩ (by
    have hG : badPrimer gPrimer = false := by decide
    have h1 : badPrimer gR1 = false := by decide
    have h2 : badPrimer gR2 = false := by decide
    simp [find_primers_for_slice, align_filter, align_filter_go_eq,
      crossPairs, pickTop, sortPairs, cpFst, hG, h1, h2, gPrimer]
    decide)

/-! ### C1 -/

/-- C1: the claim states that after the specificity/penalty filtering
pass no candidate with a failed alignment or penalty above 5 remains,
and that a direction whose candidates all exceed the threshold ends up
empty, failing the attempt with `InsufficientPrimersError`.  The code
violates this: removing a list element during iteration shifts the
remainder under the advanced cursor, so of two adjacent over-threshold
candidates (`badA`, `badB`, penalties 6 and 7) the second is never
examined and survives; the slice attempt then succeeds and can even
select the over-threshold candidate, instead of raising
`InsufficientPrimersError`. -/
theorem c1_skip_on_removal_bug :
    badPrimer badA = true ∧ badPrimer badB = true ∧
    align_filter [badA, badB] = [badB] ∧
    find_primers_for_slice cpFst [gPrimer] [badA, badB] =
      .ok ⟨gPrimer, badB, 1⟩ := by
  have hA : badPrimer badA = true := by decide
  have hB : badPrimer badB = true := by decide
  have hG : badPrimer gPrimer = false := by decide
  refine ⟨hA, hB, ?_, ?_⟩
  · simp [align_filter, align_filter_go_eq, List.eraseIdx, hA, hB]
  · simp [find_primers_for_slice, align_filter, align_filter_go_eq,
      List.eraseIdx, crossPairs, pickTop, sortPairs, cpFst, hA, hB, hG,
      gPrimer]
    decide

/-! ### C8 -/

/-- C8 counterexample: with an explicitly supplied `right_limit = 0`
(and `slice_start + amplicon_size_max = 40 > 0 = right_limit`) the
claim demands a bounds error, but Python's `right_limit or len(...)`
treats the falsy `0` as "omitted", substitutes the reference length
100, and construction succeeds. -/
theorem c8_counterexample :
    mkWindow s8 0 0 (some 0) = .ok w8 ∧
    (0 : Int) + s8.amplicon_size_max > 0 := by
  exact ⟨rfl, by decide⟩

/-- C8 (amended): Window construction fails with the bounds error
exactly when `slice_start < left_limit` or
`slice_start + amplicon_size_max` exceeds the effective right limit,
where an omitted — or, by Python falsiness, an explicitly zero —
`right_limit` is replaced by the full primary reference length. -/
theorem c8_window_bounds (s : Scheme) (left_limit slice_start : Int)
    (right_limit : Option Int) :
    mkWindow s left_limit slice_start right_limit = .error Err.sliceOutOfBounds ↔
      (slice_start < left_limit ∨
        slice_start + s.amplicon_size_max > effectiveRightLimit s right_limit) := by
  simp only [mkWindow, Window.slice_end]
  split <;> simp_all

/-! ### C9 -/

/-- C9: a successful left step followed by a successful right step
restores the original `slice_start` exactly; a step that hits its limit
raises the bounds error and returns the window unchanged (the check
precedes the mutation). -/
theorem c9_step_round_trip :
    (∀ w w₁ w₂ : Window, w.step_left = (w₁, none) → w₁.step_right = (w₂, none) →
      w₂.slice_start = w.slice_start) ∧
    (∀ (w w' : Window) (e : Err), w.step_left = (w', some e) →
      w' = w ∧ e = Err.sliceOutOfBounds) ∧
    (∀ (w w' : Window) (e : Err), w.step_right = (w', some e) →
      w' = w ∧ e = Err.sliceOutOfBounds) := by
  refine ⟨?_, ?_, ?_⟩
  · intro w w₁ w₂ h1 h2
    simp only [Window.step_left] at h1
    split at h1
    · exact absurd (Prod.ext_iff.mp h1).2 (by simp)
    · obtain ⟨h1a, -⟩ := Prod.ext_iff.mp h1
      subst h1a
      simp only [Window.step_right] at h2
      split at h2
      · exact absurd (Prod.ext_iff.mp h2).2 (by simp)
      · obtain ⟨h2a, -⟩ := Prod.ext_iff.mp h2
        subst h2a
        show w.slice_start - w.scheme.step_distance + w.scheme.step_distance =
          w.slice_start
        omega
  · intro w w' e h
    simp only [Window.step_left] at h
    split at h <;> simp_all
  · intro w w' e h
    simp only [Window.step_right] at h
    split at h <;> simp_all

/-- Witness for C9 at a concrete window (step distance 3, slice 5):
stepping left then right restores slice 5, and a blocked left step at
slice 1 returns the window unchanged with the bounds error. -/
theorem c9_witness :
    w9b.slice_start = w9.slice_start ∧
    (wE9 = wE9 ∧ Err.sliceOutOfBounds = Err.sliceOutOfBounds) :=
  ⟨c9_step_round_trip.1 w9 w9a w9b rfl rfl,
   c9_step_round_trip.2.1 wE9 wE9 Err.sliceOutOfBounds rfl⟩

/-! ### C6 -/

/-- C6: for every region with `region_num ≥ 2` the plan computed by
`design_scheme` sets
`slice_start = max (prev.right.end - target_overlap - 1 - primer_max_size - (amplicon_size_max - amplicon_size_min)) left_limit`,
sets `is_last` exactly when
`ref_len - prev.right.start ≤ amplicon_size_max`, and in that case
additionally clamps `slice_start` down to
`min slice_start (ref_len - amplicon_size_max)`. -/
theorem c6_slice_plan (s : Scheme) (regions : List Region)
    (region_num : Nat) (prevR : Region) (h2 : 2 ≤ region_num)
    (hprev : regions[regions.length - 1]? = some prevR) :
    planFor s regions region_num =
      (leftLimitFor regions region_num,
        (if s.ref_len - prevR.top_pair.right.start ≤ s.amplicon_size_max then
          min
            (max (prevR.top_pair.right.end_ - s.target_overlap - 1 -
                s.primer_max_size - (s.amplicon_size_max - s.amplicon_size_min))
              (leftLimitFor regions region_num))
            (s.ref_len - s.amplicon_size_max)
        else
          max (prevR.top_pair.right.end_ - s.target_overlap - 1 -
              s.primer_max_size - (s.amplicon_size_max - s.amplicon_size_min))
            (leftLimitFor regions region_num)),
        decide (s.ref_len - prevR.top_pair.right.start ≤ s.amplicon_size_max)) := by
  have hne : region_num ≠ 1 := by omega
  by_cases hl : s.ref_len - prevR.top_pair.right.start ≤ s.amplicon_size_max <;>
    simp [planFor, slicePlan, Scheme.amplicon_max_variation, hne, hprev, hl]

/-- Witness for C6: region 2 of the `s5` run plans
`(left_limit, slice_start, is_last) = (5, 23, false)`. -/
theorem c6_witness : planFor s5 [r5_1] 2 = (5, 23, false) := by
  rw [c6_slice_plan s5 [r5_1] 2 r5_1 (by omega) rfl]
  decide

end Primalscheme
